import Mathlib

/-!
Verification of the NMC background-error-covariance estimator
(`nmc` and `iterative_nmc` from the repository source) against its
natural-language specification.

The source is embedded shallowly over exact rationals:
* numpy arrays of shape `(ndim, nt)` become functions `Fin ndim → ℕ → ℚ`;
* the forecast model is an abstract function of an initial state and a
  time grid;
* the process-wide Gaussian random source is threaded explicitly as a
  function from draw index to perturbation vector;
* fallible Python code returns `Except PyExc`, where `PyExc` lists both
  the exceptions the code can actually raise (`ZeroDivisionError` from
  `length // t1_nstep` with a zero divisor, `ValueError` from
  `np.zeros` with a negative dimension) and the error conditions named
  by the specification (`InvalidParameter`, `InsufficientData`,
  `InsufficientIterations`), so that claims about the latter are
  statable.
-/

/-- Python `int()` applied to a real number: truncation toward zero
(floor for nonnegative arguments, ceiling for negative ones). -/
def pyTrunc (q : ℚ) : ℤ := if 0 ≤ q then ⌊q⌋ else ⌈q⌉

/-- Exceptions and spec-named error conditions for the embedded code.
The first two are what the Python source can actually raise; the last
three are the conditions named by the specification. -/
inductive PyExc where
  | zeroDivisionError
  | valueError
  | invalidParameter
  | insufficientData
  | insufficientIterations
  deriving DecidableEq

/-- The forecast-model contract: a callable taking an initial state of
dimension `ndim` and a time grid, returning a trajectory indexed by
dimension and time-step number. -/
def NmcModel (ndim : ℕ) : Type :=
  (Fin ndim → ℚ) → List ℚ → (Fin ndim → ℕ → ℚ)

/-- Source line `t1_nstep = int(t1 / dt)`. -/
def nmcT1nstep (dt t1 : ℚ) : ℤ := pyTrunc (t1 / dt)

/-- Source line `num = length // t1_nstep - 1` (Python floor
division `//` on integers is `Int.fdiv`). -/
def nmcNum (length : ℕ) (dt t1 : ℚ) : ℤ :=
  Int.fdiv (length : ℤ) (nmcT1nstep dt t1) - 1

/-- Source line `scale = ref[:, idx].mean()`. -/
def nmcScale {ndim : ℕ} (ref : Fin ndim → ℕ → ℚ) (idx : ℕ) : ℚ :=
  (∑ d, ref d idx) / (ndim : ℚ)

/-- Source line `x0 = ref[:, i*t1_nstep] + np.random.randn(ndim) * scale`;
here `randn i` is the vector drawn at loop iteration `i`. -/
def nmcX0 {ndim : ℕ} (ref : Fin ndim → ℕ → ℚ) (randn : ℕ → Fin ndim → ℚ)
    (n i : ℕ) : Fin ndim → ℚ :=
  fun d => ref d (i * n) + randn i d * nmcScale ref (i * n)

/-- Source line `ts = np.arange(0, 2*t1_nstep*dt, dt)`: the
`2*t1_nstep` time points `0, dt, ..., (2*t1_nstep - 1)*dt`. -/
def nmcTs (dt : ℚ) (n : ℕ) : List ℚ :=
  (List.range (2 * n)).map (fun k => (k : ℚ) * dt)

/-- Source line `x_forecast = model(x0, ts)` for loop iteration `i`: the
forecast segment number `i`, stored in `result[i, :]`. -/
def nmcSegment {ndim : ℕ} (model : NmcModel ndim) (ref : Fin ndim → ℕ → ℚ)
    (dt : ℚ) (randn : ℕ → Fin ndim → ℚ) (n i : ℕ) : Fin ndim → ℕ → ℚ :=
  model (nmcX0 ref randn n i) (nmcTs dt n)

/-- Source array `result`: the list of the `num` forecast segments. -/
def nmcForecasts {ndim : ℕ} (model : NmcModel ndim) (ref : Fin ndim → ℕ → ℚ)
    (dt : ℚ) (randn : ℕ → Fin ndim → ℚ) (n m : ℕ) :
    List (Fin ndim → ℕ → ℚ) :=
  (List.range m).map (nmcSegment model ref dt randn n)

/-- Source list `xfcst_short`: the state of each segment at index
`t1_nstep - 1`. -/
def nmcShortList {ndim : ℕ} (model : NmcModel ndim) (ref : Fin ndim → ℕ → ℚ)
    (dt : ℚ) (randn : ℕ → Fin ndim → ℚ) (n m : ℕ) : List (Fin ndim → ℚ) :=
  (nmcForecasts model ref dt randn n m).map (fun xf => fun d => xf d (n - 1))

/-- Source list `xfcst_long`: the state of each segment at index
`2*t1_nstep - 1`. -/
def nmcLongList {ndim : ℕ} (model : NmcModel ndim) (ref : Fin ndim → ℕ → ℚ)
    (dt : ℚ) (randn : ℕ → Fin ndim → ℚ) (n m : ℕ) : List (Fin ndim → ℚ) :=
  (nmcForecasts model ref dt randn n m).map (fun xf => fun d => xf d (2 * n - 1))

/-- Source expression `zip(xfcst_short[1:], xfcst_long[:-1])`. -/
def nmcPairs {α : Type} (xfcst_short xfcst_long : List α) : List (α × α) :=
  (xfcst_short.drop 1).zip xfcst_long.dropLast

/-- The outer product `v @ v.T` of a column vector with itself. -/
def outerProd {k : ℕ} (v : Fin k → ℚ) : Matrix (Fin k) (Fin k) ℚ :=
  Matrix.vecMulVec v v

/-- The accumulation loop
`for xshort, xlong in zip(...): Pb = Pb + (xlong-xshort) @ (xlong-xshort).T`. -/
def nmcPb {ndim : ℕ} (model : NmcModel ndim) (ref : Fin ndim → ℕ → ℚ)
    (dt : ℚ) (randn : ℕ → Fin ndim → ℚ) (n m : ℕ) :
    Matrix (Fin ndim) (Fin ndim) ℚ :=
  (nmcPairs (nmcShortList model ref dt randn n m)
      (nmcLongList model ref dt randn n m)).foldl
    (fun acc p => acc + outerProd (p.2 - p.1)) 0

/-- The `nmc` function of the source.  Control flow follows Python
semantics exactly: `length // t1_nstep` raises `ZeroDivisionError` when
`t1_nstep = 0` (and `t1 / dt` itself raises it when `dt = 0`, which the
embedding reaches at the same point since `t1 / 0 = 0` in `ℚ` makes
`pyTrunc` zero); `np.zeros((num, ndim, 2*t1_nstep))` raises
`ValueError` when `num < 0`; otherwise the function returns
`alpha * Pb / (num - 1)`.  No other failure path exists. -/
def nmc {ndim : ℕ} (model : NmcModel ndim) (ref : Fin ndim → ℕ → ℚ)
    (length : ℕ) (dt t1 alpha : ℚ) (randn : ℕ → Fin ndim → ℚ) :
    Except PyExc (Matrix (Fin ndim) (Fin ndim) ℚ) :=
  if nmcT1nstep dt t1 = 0 then Except.error PyExc.zeroDivisionError
  else if nmcNum length dt t1 < 0 then Except.error PyExc.valueError
  else Except.ok ((alpha / ((nmcNum length dt t1 : ℚ) - 1)) •
    nmcPb model ref dt randn (nmcT1nstep dt t1).toNat (nmcNum length dt t1).toNat)

/-- The lagged difference vector of pair `i`: the state of segment `i`
at index `2*t1_nstep - 1` minus the state of segment `i+1` at index
`t1_nstep - 1`. -/
def nmcDiff {ndim : ℕ} (model : NmcModel ndim) (ref : Fin ndim → ℕ → ℚ)
    (dt : ℚ) (randn : ℕ → Fin ndim → ℚ) (n i : ℕ) : Fin ndim → ℚ :=
  (fun d => nmcSegment model ref dt randn n i d (2 * n - 1)) -
    (fun d => nmcSegment model ref dt randn n (i + 1) d (n - 1))

/-- The matrix described by the specification: `alpha` times the sum of
the outer products of the `num - 1` lagged difference vectors, divided
by `num - 1`. -/
def nmcSpecMatrix {ndim : ℕ} (model : NmcModel ndim) (ref : Fin ndim → ℕ → ℚ)
    (dt : ℚ) (randn : ℕ → Fin ndim → ℚ) (n m : ℕ) (alpha : ℚ) :
    Matrix (Fin ndim) (Fin ndim) ℚ :=
  (alpha / ((m : ℚ) - 1)) •
    ∑ i ∈ Finset.range (m - 1), outerProd (nmcDiff model ref dt randn n i)

lemma foldl_add_eq_sum {α : Type} {M : Type} [AddCommMonoid M] (f : α → M) :
    ∀ (l : List α) (a : M), l.foldl (fun acc x => acc + f x) a = a + (l.map f).sum := by
  intro l
  induction l with
  | nil => intro a; simp
  | cons x xs ih => intro a; simp [ih, add_assoc]

lemma sum_map_range {M : Type} [AddCommMonoid M] (f : ℕ → M) (k : ℕ) :
    ((List.range k).map f).sum = ∑ i ∈ Finset.range k, f i := by
  induction k with
  | zero => simp
  | succ k ih => simp [List.range_succ, Finset.sum_range_succ, ih]

lemma nmcPairs_map_range {α : Type} (S L : ℕ → α) (m : ℕ) :
    nmcPairs ((List.range m).map S) ((List.range m).map L) =
      (List.range (m - 1)).map (fun i => (S (i + 1), L i)) := by
  cases m with
  | zero => simp [nmcPairs]
  | succ k =>
    have h1 : ((List.range (k + 1)).map S).drop 1 =
        (List.range k).map (fun i => S (i + 1)) := by
      simp [List.range_succ_eq_map, List.map_map]
    have h2 : ((List.range (k + 1)).map L).dropLast = (List.range k).map L := by
      rw [← List.map_dropLast]
      simp [List.range_succ]
    simp only [nmcPairs, h1, h2, Nat.succ_sub_one]
    exact List.zip_map' (fun i => S (i + 1)) L (List.range k)

lemma nmcShortList_eq {ndim : ℕ} (model : NmcModel ndim) (ref : Fin ndim → ℕ → ℚ)
    (dt : ℚ) (randn : ℕ → Fin ndim → ℚ) (n m : ℕ) :
    nmcShortList model ref dt randn n m =
      (List.range m).map (fun i => fun d => nmcSegment model ref dt randn n i d (n - 1)) := by
  simp [nmcShortList, nmcForecasts, List.map_map]

lemma nmcLongList_eq {ndim : ℕ} (model : NmcModel ndim) (ref : Fin ndim → ℕ → ℚ)
    (dt : ℚ) (randn : ℕ → Fin ndim → ℚ) (n m : ℕ) :
    nmcLongList model ref dt randn n m =
      (List.range m).map (fun i => fun d => nmcSegment model ref dt randn n i d (2 * n - 1)) := by
  simp [nmcLongList, nmcForecasts, List.map_map]

/-- The accumulation loop computes the sum of the outer products of the
`m - 1` lagged difference vectors. -/
lemma nmcPb_eq_sum {ndim : ℕ} (model : NmcModel ndim) (ref : Fin ndim → ℕ → ℚ)
    (dt : ℚ) (randn : ℕ → Fin ndim → ℚ) (n m : ℕ) :
    nmcPb model ref dt randn n m =
      ∑ i ∈ Finset.range (m - 1), outerProd (nmcDiff model ref dt randn n i) := by
  unfold nmcPb
  rw [nmcShortList_eq, nmcLongList_eq, nmcPairs_map_range,
    foldl_add_eq_sum, zero_add, List.map_map, sum_map_range]
  rfl

/-- Central refinement lemma: whenever `t1_nstep ≥ 1` and
`num = m ≥ 0`, `nmc` returns (no exception) and its value is the
matrix of the specification. -/
lemma nmc_eq_ok {ndim : ℕ} (model : NmcModel ndim) (ref : Fin ndim → ℕ → ℚ)
    (length : ℕ) (dt t1 alpha : ℚ) (randn : ℕ → Fin ndim → ℚ) (n m : ℕ)
    (hn : nmcT1nstep dt t1 = (n : ℤ)) (hn1 : 1 ≤ n)
    (hm : nmcNum length dt t1 = (m : ℤ)) :
    nmc model ref length dt t1 alpha randn =
      Except.ok (nmcSpecMatrix model ref dt randn n m alpha) := by
  have hne : nmcT1nstep dt t1 ≠ 0 := by
    rw [hn]
    exact_mod_cast Nat.one_le_iff_ne_zero.mp hn1
  have hnonneg : ¬ nmcNum length dt t1 < 0 := by
    rw [hm]
    exact not_lt.mpr (Int.natCast_nonneg m)
  rw [nmc, if_neg hne, if_neg hnonneg, hn, hm]
  simp only [Int.toNat_natCast]
  rw [nmcPb_eq_sum, nmcSpecMatrix]
  norm_num

lemma outerProd_transpose {k : ℕ} (v : Fin k → ℚ) :
    (outerProd v).transpose = outerProd v := by
  ext i j
  simp [outerProd, Matrix.vecMulVec, mul_comm]

lemma outerProd_mulVec {k : ℕ} (v x : Fin k → ℚ) :
    (outerProd v).mulVec x = fun i => v i * Matrix.dotProduct v x := by
  ext i
  simp [outerProd, Matrix.vecMulVec, Matrix.mulVec, Matrix.dotProduct,
    Finset.mul_sum, mul_assoc]

lemma dot_outerProd_mulVec {k : ℕ} (v x : Fin k → ℚ) :
    Matrix.dotProduct x ((outerProd v).mulVec x) =
      Matrix.dotProduct v x * Matrix.dotProduct v x := by
  rw [outerProd_mulVec]
  simp only [Matrix.dotProduct]
  rw [Finset.sum_mul]
  apply Finset.sum_congr rfl
  intro i _
  ring

lemma nmcSpecMatrix_transpose {ndim : ℕ} (model : NmcModel ndim)
    (ref : Fin ndim → ℕ → ℚ) (dt : ℚ) (randn : ℕ → Fin ndim → ℚ)
    (n m : ℕ) (alpha : ℚ) :
    (nmcSpecMatrix model ref dt randn n m alpha).transpose =
      nmcSpecMatrix model ref dt randn n m alpha := by
  unfold nmcSpecMatrix
  rw [Matrix.transpose_smul, Matrix.transpose_sum]
  congr 1
  apply Finset.sum_congr rfl
  intro i _
  exact outerProd_transpose _

lemma sum_mulVec {k : ℕ} (s : Finset ℕ) (f : ℕ → Matrix (Fin k) (Fin k) ℚ)
    (x : Fin k → ℚ) :
    (∑ i ∈ s, f i).mulVec x = ∑ i ∈ s, (f i).mulVec x := by
  classical
  induction s using Finset.induction_on with
  | empty => simp [Matrix.mulVec]
  | insert hnotmem ih =>
    rw [Finset.sum_insert hnotmem, Finset.sum_insert hnotmem,
      Matrix.add_mulVec, ih]

lemma dot_sum {k : ℕ} (s : Finset ℕ) (x : Fin k → ℚ) (g : ℕ → Fin k → ℚ) :
    Matrix.dotProduct x (∑ i ∈ s, g i) = ∑ i ∈ s, Matrix.dotProduct x (g i) := by
  classical
  induction s using Finset.induction_on with
  | empty => simp
  | insert hnotmem ih =>
    rw [Finset.sum_insert hnotmem, Finset.sum_insert hnotmem,
      Matrix.dotProduct_add, ih]

/-- The specification matrix is positive semidefinite whenever the
scalar factor `alpha / (m - 1)` is nonnegative. -/
lemma nmcSpecMatrix_psd {ndim : ℕ} (model : NmcModel ndim)
    (ref : Fin ndim → ℕ → ℚ) (dt : ℚ) (randn : ℕ → Fin ndim → ℚ)
    (n m : ℕ) (alpha : ℚ) (hc : 0 ≤ alpha / ((m : ℚ) - 1)) (x : Fin ndim → ℚ) :
    0 ≤ Matrix.dotProduct x ((nmcSpecMatrix model ref dt randn n m alpha).mulVec x) := by
  unfold nmcSpecMatrix
  rw [Matrix.smul_mulVec_assoc, Matrix.dotProduct_smul, sum_mulVec, dot_sum]
  apply mul_nonneg hc
  apply Finset.sum_nonneg
  intro i _
  rw [dot_outerProd_mulVec]
  exact mul_self_nonneg _

/-- A concrete stationary model for witnesses: the forecast keeps the
initial state at every time stamp. -/
def constModel : NmcModel 1 := fun x0 _ts => fun d _t => x0 d

/-- A concrete constant reference trajectory for witnesses. -/
def refOne : Fin 1 → ℕ → ℚ := fun _ _ => 1

/-- A concrete random source drawing zero for witnesses. -/
def randn0 : ℕ → Fin 1 → ℚ := fun _ _ => 0

/-- C1: for every call with `t1_nstep = floor(t1/dt) ≥ 1` and
`num = floor(nt/t1_nstep) - 1 ≥ 2`, the returned matrix equals `alpha`
times the sum over `i` in `0..num-2` of the outer products
`d_i * d_i^T`, divided by `num - 1`, where `d_i` is the forecast state
of segment `i` at index `2*t1_nstep - 1` minus the forecast state of
segment `i+1` at index `t1_nstep - 1`. -/
theorem nmc_lag_covariance_formula {ndim : ℕ} (model : NmcModel ndim)
    (ref : Fin ndim → ℕ → ℚ) (length : ℕ) (dt t1 alpha : ℚ)
    (randn : ℕ → Fin ndim → ℚ) (n m : ℕ)
    (hn : nmcT1nstep dt t1 = (n : ℤ)) (hn1 : 1 ≤ n)
    (hm : nmcNum length dt t1 = (m : ℤ)) (hm2 : 2 ≤ m) :
    nmc model ref length dt t1 alpha randn =
      Except.ok (nmcSpecMatrix model ref dt randn n m alpha) :=
  nmc_eq_ok model ref length dt t1 alpha randn n m hn hn1 hm

theorem nmc_lag_covariance_formula_witness :
    nmcT1nstep 1 3 = ((3 : ℕ) : ℤ) ∧ 1 ≤ 3 ∧
    nmcNum 20 1 3 = ((5 : ℕ) : ℤ) ∧ 2 ≤ 5 ∧
    nmc constModel refOne 20 1 3 1 randn0 =
      Except.ok (nmcSpecMatrix constModel refOne 1 randn0 3 5 1) := by
  have h1 : nmcT1nstep 1 3 = ((3 : ℕ) : ℤ) := by norm_num [nmcT1nstep, pyTrunc]
  have h2 : nmcNum 20 1 3 = ((5 : ℕ) : ℤ) := by rw [nmcNum, h1]; decide
  exact ⟨h1, by norm_num, h2, by norm_num,
    nmc_lag_covariance_formula constModel refOne 20 1 3 1 randn0 3 5 h1
      (by norm_num) h2 (by norm_num)⟩

/-- C4: for valid inputs (`t1_nstep ≥ 1`, `num ≥ 2`, `alpha > 0`), the
matrix returned by `nmc` is symmetric and positive semidefinite. -/
theorem nmc_symmetric_psd {ndim : ℕ} (model : NmcModel ndim)
    (ref : Fin ndim → ℕ → ℚ) (length : ℕ) (dt t1 alpha : ℚ)
    (randn : ℕ → Fin ndim → ℚ) (n m : ℕ)
    (hn : nmcT1nstep dt t1 = (n : ℤ)) (hn1 : 1 ≤ n)
    (hm : nmcNum length dt t1 = (m : ℤ)) (hm2 : 2 ≤ m) (ha : 0 < alpha) :
    ∀ M, nmc model ref length dt t1 alpha randn = Except.ok M →
      M.transpose = M ∧ ∀ x, 0 ≤ Matrix.dotProduct x (M.mulVec x) := by
  intro M hM
  rw [nmc_eq_ok model ref length dt t1 alpha randn n m hn hn1 hm] at hM
  have hMeq : nmcSpecMatrix model ref dt randn n m alpha = M := by
    injection hM
  subst hMeq
  have hm2' : (2 : ℚ) ≤ (m : ℚ) := by exact_mod_cast hm2
  have hc : 0 ≤ alpha / ((m : ℚ) - 1) := by
    apply div_nonneg ha.le
    linarith
  exact ⟨nmcSpecMatrix_transpose model ref dt randn n m alpha,
    nmcSpecMatrix_psd model ref dt randn n m alpha hc⟩

theorem nmc_symmetric_psd_witness :
    (0 : ℚ) < 1 ∧ 2 ≤ 5 ∧
    ((nmcSpecMatrix constModel refOne 1 randn0 3 5 1).transpose =
        nmcSpecMatrix constModel refOne 1 randn0 3 5 1 ∧
      ∀ x, 0 ≤ Matrix.dotProduct x
        ((nmcSpecMatrix constModel refOne 1 randn0 3 5 1).mulVec x)) := by
  have h1 : nmcT1nstep 1 3 = ((3 : ℕ) : ℤ) := by norm_num [nmcT1nstep, pyTrunc]
  have h2 : nmcNum 20 1 3 = ((5 : ℕ) : ℤ) := by rw [nmcNum, h1]; decide
  exact ⟨by norm_num, by norm_num,
    nmc_symmetric_psd constModel refOne 20 1 3 1 randn0 3 5 h1 (by norm_num)
      h2 (by norm_num) (by norm_num) _
      (nmc_eq_ok constModel refOne 20 1 3 1 randn0 3 5 h1 (by norm_num) h2)⟩

/-- C2 counterexample: with `t1_nstep = 2` and a reference of length 4,
`num = 4 // 2 - 1 = 1 < 2`, yet the call does not fail with
`InsufficientData`: it returns a matrix (here the zero matrix, the
exact-arithmetic value of `alpha * 0 / 0`; numpy returns a NaN-filled
matrix, still a returned matrix and not a raised condition). -/
theorem nmc_num_one_counterexample :
    nmc constModel refOne 4 1 2 1 randn0 = Except.ok 0 ∧
    nmc constModel refOne 4 1 2 1 randn0 ≠
      Except.error PyExc.insufficientData := by
  have h1 : nmcT1nstep 1 2 = ((2 : ℕ) : ℤ) := by norm_num [nmcT1nstep, pyTrunc]
  have h2 : nmcNum 4 1 2 = ((1 : ℕ) : ℤ) := by rw [nmcNum, h1]; decide
  have h : nmc constModel refOne 4 1 2 1 randn0 =
      Except.ok (nmcSpecMatrix constModel refOne 1 randn0 2 1 1) :=
    nmc_eq_ok constModel refOne 4 1 2 1 randn0 2 1 h1 (by norm_num) h2
  have hz : nmcSpecMatrix constModel refOne 1 randn0 2 1 1 = 0 := by
    simp [nmcSpecMatrix]
  rw [h, hz]
  exact ⟨rfl, by simp⟩

/-- C2 amended: when `num = 1` (so `num < 2`), `nmc` performs its
random draws and model calls and still returns a matrix; no
`InsufficientData` condition exists in the code. -/
theorem nmc_num_one_returns_matrix {ndim : ℕ} (model : NmcModel ndim)
    (ref : Fin ndim → ℕ → ℚ) (length : ℕ) (dt t1 alpha : ℚ)
    (randn : ℕ → Fin ndim → ℚ) (n : ℕ)
    (hn : nmcT1nstep dt t1 = (n : ℤ)) (hn1 : 1 ≤ n)
    (hm : nmcNum length dt t1 = 1) :
    ∃ M, nmc model ref length dt t1 alpha randn = Except.ok M :=
  ⟨nmcSpecMatrix model ref dt randn n 1 alpha,
    nmc_eq_ok model ref length dt t1 alpha randn n 1 hn hn1
      (by exact_mod_cast hm)⟩

theorem nmc_num_one_returns_matrix_witness :
    nmcT1nstep 1 2 = ((2 : ℕ) : ℤ) ∧ nmcNum 4 1 2 = 1 ∧
    ∃ M, nmc constModel refOne 4 1 2 1 randn0 = Except.ok M := by
  have h1 : nmcT1nstep 1 2 = ((2 : ℕ) : ℤ) := by norm_num [nmcT1nstep, pyTrunc]
  have h2 : nmcNum 4 1 2 = 1 := by rw [nmcNum, h1]; decide
  exact ⟨h1, h2,
    nmc_num_one_returns_matrix constModel refOne 4 1 2 1 randn0 2 h1
      (by norm_num) h2⟩

/-- C3 counterexample: with `dt = 1` and `t1 = 1/2`, `t1_nstep = 0`,
and the call fails with the Python `ZeroDivisionError` raised by the
integer floor division `nt // t1_nstep` — not with an
`InvalidParameter` condition, which does not exist in the code. -/
theorem nmc_zero_window_counterexample :
    nmc constModel refOne 4 1 (1/2) 1 randn0 =
      Except.error PyExc.zeroDivisionError ∧
    nmc constModel refOne 4 1 (1/2) 1 randn0 ≠
      Except.error PyExc.invalidParameter := by
  have h : nmcT1nstep 1 (1/2) = 0 := by norm_num [nmcT1nstep, pyTrunc]
  rw [nmc, if_pos h]
  exact ⟨rfl, by simp⟩

/-- C3 amended: whenever `t1_nstep = floor(t1/dt) = 0`, the call fails
with `ZeroDivisionError` (raised by `nt // t1_nstep`) before any model
call — the model argument is arbitrary and unused — and returns no
value; it does not raise an `InvalidParameter` condition. -/
theorem nmc_zero_t1nstep_zero_division {ndim : ℕ} (model : NmcModel ndim)
    (ref : Fin ndim → ℕ → ℚ) (length : ℕ) (dt t1 alpha : ℚ)
    (randn : ℕ → Fin ndim → ℚ) (h : nmcT1nstep dt t1 = 0) :
    nmc model ref length dt t1 alpha randn =
      Except.error PyExc.zeroDivisionError := by
  rw [nmc, if_pos h]

theorem nmc_zero_t1nstep_zero_division_witness :
    nmcT1nstep 1 (1/2) = 0 ∧
    nmc constModel refOne 4 1 (1/2) 1 randn0 =
      Except.error PyExc.zeroDivisionError := by
  have h : nmcT1nstep 1 (1/2) = 0 := by norm_num [nmcT1nstep, pyTrunc]
  exact ⟨h, nmc_zero_t1nstep_zero_division constModel refOne 4 1 (1/2) 1 randn0 h⟩

/-- C8: for a 1-dimensional reference of 20 time steps with `dt = 0.1`
and `t1 = 0.3`, the call computes `t1_nstep = 3`, `num = 5`,
accumulates exactly `num - 1 = 4` lag pairs, and returns a `(1,1)`
matrix, whatever the model, reference values and random draws. -/
theorem nmc_scenario_twenty_steps (model : NmcModel 1) (ref : Fin 1 → ℕ → ℚ)
    (randn : ℕ → Fin 1 → ℚ) :
    nmcT1nstep (1/10) (3/10) = 3 ∧ nmcNum 20 (1/10) (3/10) = 5 ∧
    (nmcPairs (nmcShortList model ref (1/10) randn 3 5)
      (nmcLongList model ref (1/10) randn 3 5)).length = 4 ∧
    ∃ M : Matrix (Fin 1) (Fin 1) ℚ,
      nmc model ref 20 (1/10) (3/10) 1 randn = Except.ok M := by
  have h1 : nmcT1nstep (1/10) (3/10) = 3 := by norm_num [nmcT1nstep, pyTrunc]
  have h2 : nmcNum 20 (1/10) (3/10) = 5 := by rw [nmcNum, h1]; decide
  refine ⟨h1, h2, ?_, ⟨_, nmc_eq_ok model ref 20 (1/10) (3/10) 1 randn 3 5
    (by exact_mod_cast h1) (by norm_num) (by exact_mod_cast h2)⟩⟩
  simp [nmcPairs, nmcShortList, nmcLongList, nmcForecasts]

/-- C9: `alpha` enters only as a final multiplicative factor: with the
same random draws, `nmc` at `alpha = k` equals `k` times `nmc` at
`alpha = 1`, elementwise (including identical error behaviour). -/
theorem nmc_alpha_scaling {ndim : ℕ} (model : NmcModel ndim)
    (ref : Fin ndim → ℕ → ℚ) (length : ℕ) (dt t1 : ℚ)
    (randn : ℕ → Fin ndim → ℚ) (k : ℚ) (hk : 0 < k) :
    nmc model ref length dt t1 k randn =
      Except.map (fun M => k • M) (nmc model ref length dt t1 1 randn) := by
  unfold nmc
  by_cases h1 : nmcT1nstep dt t1 = 0
  · simp [h1, Except.map]
  · by_cases h2 : nmcNum length dt t1 < 0
    · simp [h1, h2, Except.map]
    · simp only [h1, h2, if_false, Except.map]
      rw [smul_smul, mul_one_div]

theorem nmc_alpha_scaling_witness :
    (0 : ℚ) < 2 ∧
    nmc constModel refOne 20 1 3 2 randn0 =
      Except.map (fun M => (2 : ℚ) • M) (nmc constModel refOne 20 1 3 1 randn0) :=
  ⟨by norm_num, nmc_alpha_scaling constModel refOne 20 1 3 randn0 2 (by norm_num)⟩

/-- The duck-typed assimilation collaborator consumed by
`iterative_nmc`: internal state of type `σ`, the five operations of the
contract (`set_params`, `cycle`, the `analysis` trajectory with its
time-stamp count, `model`, `dt`). -/
structure Assim (ndim : ℕ) (σ : Type) where
  setParams : Matrix (Fin ndim) (Fin ndim) ℚ → σ → σ
  cycle : σ → σ
  analysis : σ → Fin ndim → ℕ → ℚ
  analysisLen : σ → ℕ
  model : NmcModel ndim
  dt : ℚ

/-- The loop-carried state of `iterative_nmc`: the assimilation
object state, the current `Pb`, the accumulator `Pb_result`, and
`count`. -/
structure IterState (ndim : ℕ) (σ : Type) where
  s : σ
  Pb : Matrix (Fin ndim) (Fin ndim) ℚ
  acc : Matrix (Fin ndim) (Fin ndim) ℚ
  count : ℕ

/-- One iteration of the `for i in range(niter)` loop of
`iterative_nmc`: `assim.set_params(Pb=Pb); assim.cycle();
Pb = nmc(model, assim.analysis, dt, 10*dt)`; then `Pb_result += Pb;
count += 1` exactly when `i/niter > mean_ratio`.  An exception from
`nmc` propagates unchanged. -/
def iterStep {ndim : ℕ} {σ : Type} (A : Assim ndim σ) (niter : ℕ)
    (mean_ratio : ℚ) (randn : ℕ → ℕ → Fin ndim → ℚ)
    (st : IterState ndim σ) (i : ℕ) : Except PyExc (IterState ndim σ) :=
  match nmc A.model (A.analysis (A.cycle (A.setParams st.Pb st.s)))
      (A.analysisLen (A.cycle (A.setParams st.Pb st.s)))
      A.dt (10 * A.dt) 1 (randn i) with
  | Except.error e => Except.error e
  | Except.ok Pb =>
    if mean_ratio < (i : ℚ) / (niter : ℚ) then
      Except.ok ⟨A.cycle (A.setParams st.Pb st.s), Pb, st.acc + Pb, st.count + 1⟩
    else
      Except.ok ⟨A.cycle (A.setParams st.Pb st.s), Pb, st.acc, st.count⟩

/-- The `iterative_nmc` function of the source: `Pb_ini` defaults to
`R`; the loop runs `niter` times; at the end `Pb_result /= count` and
`Pb_result` is returned (Python performs no `count == 0` check and no
`mean_ratio` validation; numpy division by a zero `count` yields a NaN
matrix, embedded here as the `ℚ` junk value `(0 : ℚ)⁻¹ = 0`). -/
def iterativeNmc {ndim : ℕ} {σ : Type} (A : Assim ndim σ) (s0 : σ)
    (R : Matrix (Fin ndim) (Fin ndim) ℚ)
    (Pb_ini : Option (Matrix (Fin ndim) (Fin ndim) ℚ))
    (niter : ℕ) (mean_ratio : ℚ) (randn : ℕ → ℕ → Fin ndim → ℚ) :
    Except PyExc (Matrix (Fin ndim) (Fin ndim) ℚ) :=
  match (List.range niter).foldlM (iterStep A niter mean_ratio randn)
      ⟨s0, Pb_ini.getD R, 0, 0⟩ with
  | Except.error e => Except.error e
  | Except.ok st => Except.ok (((st.count : ℚ))⁻¹ • st.acc)

/-- The iterations among `0..k-1` that satisfy the accumulation test
`i / niter > mean_ratio`. -/
def iterQualSetUpTo (niter k : ℕ) (mean_ratio : ℚ) : Finset ℕ :=
  (Finset.range k).filter (fun i => mean_ratio < (i : ℚ) / (niter : ℚ))

/-- The iterations of the whole loop that satisfy the accumulation
test. -/
def iterQualSet (niter : ℕ) (mean_ratio : ℚ) : Finset ℕ :=
  iterQualSetUpTo niter niter mean_ratio

/-- The number of iterations whose covariance estimate is averaged into
the result of `iterative_nmc`. -/
def iterCount (niter : ℕ) (mean_ratio : ℚ) : ℕ :=
  (iterQualSet niter mean_ratio).card

lemma foldlM_append_ok {m : Type → Type} [Monad m] [LawfulMonad m]
    {α β : Type} (f : β → α → m β) (l₁ l₂ : List α) :
    ∀ b : β, (l₁ ++ l₂).foldlM f b = l₁.foldlM f b >>= fun c => l₂.foldlM f c := by
  induction l₁ with
  | nil => intro b; simp
  | cons x xs ih => intro b; simp [ih, bind_assoc]

/-- Invariant of the `iterative_nmc` loop: after `k ≤ niter`
iterations, provided every `nmc` call so far returned (with `sSeq` the
successive assimilation states and `PbSeq` the successive covariance
estimates), the loop state holds `sSeq k`, `PbSeq k`, the sum of the
qualifying estimates and their number. -/
lemma iterativeNmc_fold {ndim : ℕ} {σ : Type} (A : Assim ndim σ) (s0 : σ)
    (R : Matrix (Fin ndim) (Fin ndim) ℚ)
    (Pb_ini : Option (Matrix (Fin ndim) (Fin ndim) ℚ))
    (niter : ℕ) (mean_ratio : ℚ) (randn : ℕ → ℕ → Fin ndim → ℚ)
    (sSeq : ℕ → σ) (PbSeq : ℕ → Matrix (Fin ndim) (Fin ndim) ℚ)
    (hs0 : sSeq 0 = s0) (hP0 : PbSeq 0 = Pb_ini.getD R)
    (hs : ∀ i, sSeq (i + 1) = A.cycle (A.setParams (PbSeq i) (sSeq i)))
    (hP : ∀ i, i < niter →
      nmc A.model (A.analysis (sSeq (i + 1))) (A.analysisLen (sSeq (i + 1)))
        A.dt (10 * A.dt) 1 (randn i) = Except.ok (PbSeq (i + 1))) :
    ∀ k, k ≤ niter →
      (List.range k).foldlM (iterStep A niter mean_ratio randn)
          ⟨s0, Pb_ini.getD R, 0, 0⟩ =
        Except.ok ⟨sSeq k, PbSeq k,
          ∑ i ∈ iterQualSetUpTo niter k mean_ratio, PbSeq (i + 1),
          (iterQualSetUpTo niter k mean_ratio).card⟩ := by
  intro k
  induction k with
  | zero =>
    intro _
    simp only [List.range_zero, List.foldlM_nil, iterQualSetUpTo,
      Finset.range_zero, Finset.filter_empty, Finset.sum_empty,
      Finset.card_empty, hs0, hP0]
    rfl
  | succ k ih =>
    intro hk
    have hklt : k < niter := hk
    have hstep : iterStep A niter mean_ratio randn
        ⟨sSeq k, PbSeq k,
          ∑ i ∈ iterQualSetUpTo niter k mean_ratio, PbSeq (i + 1),
          (iterQualSetUpTo niter k mean_ratio).card⟩ k =
        Except.ok ⟨sSeq (k + 1), PbSeq (k + 1),
          ∑ i ∈ iterQualSetUpTo niter (k + 1) mean_ratio, PbSeq (i + 1),
          (iterQualSetUpTo niter (k + 1) mean_ratio).card⟩ := by
      have hcyc : A.cycle (A.setParams (PbSeq k) (sSeq k)) = sSeq (k + 1) :=
        (hs k).symm
      have hk_notmem : k ∉ iterQualSetUpTo niter k mean_ratio := by
        simp [iterQualSetUpTo]
      have hsucc : iterQualSetUpTo niter (k + 1) mean_ratio =
          if mean_ratio < (k : ℚ) / (niter : ℚ) then
            insert k (iterQualSetUpTo niter k mean_ratio)
          else iterQualSetUpTo niter k mean_ratio := by
        simp [iterQualSetUpTo, Finset.range_succ, Finset.filter_insert]
      rw [iterStep]
      simp only [hcyc, hP k hklt]
      by_cases hcond : mean_ratio < (k : ℚ) / (niter : ℚ)
      · rw [if_pos hcond, hsucc, if_pos hcond,
          Finset.sum_insert hk_notmem, Finset.card_insert_of_not_mem hk_notmem]
        simp [IterState.mk.injEq, add_comm]
      · rw [if_neg hcond, hsucc, if_neg hcond]
    rw [List.range_succ, foldlM_append_ok, ih (Nat.le_of_lt hklt)]
    show iterStep A niter mean_ratio randn _ k >>= _ = _
    rw [hstep]
    show List.foldlM _ _ _ = _
    simp only [List.foldlM_nil]
    rfl

/-- The run of `iterative_nmc`, characterized: provided every `nmc`
call returns, the result is the sum of the qualifying covariance
estimates divided by their number. -/
lemma iterativeNmc_run {ndim : ℕ} {σ : Type} (A : Assim ndim σ) (s0 : σ)
    (R : Matrix (Fin ndim) (Fin ndim) ℚ)
    (Pb_ini : Option (Matrix (Fin ndim) (Fin ndim) ℚ))
    (niter : ℕ) (mean_ratio : ℚ) (randn : ℕ → ℕ → Fin ndim → ℚ)
    (sSeq : ℕ → σ) (PbSeq : ℕ → Matrix (Fin ndim) (Fin ndim) ℚ)
    (hs0 : sSeq 0 = s0) (hP0 : PbSeq 0 = Pb_ini.getD R)
    (hs : ∀ i, sSeq (i + 1) = A.cycle (A.setParams (PbSeq i) (sSeq i)))
    (hP : ∀ i, i < niter →
      nmc A.model (A.analysis (sSeq (i + 1))) (A.analysisLen (sSeq (i + 1)))
        A.dt (10 * A.dt) 1 (randn i) = Except.ok (PbSeq (i + 1))) :
    iterativeNmc A s0 R Pb_ini niter mean_ratio randn =
      Except.ok (((iterCount niter mean_ratio : ℚ))⁻¹ •
        ∑ i ∈ iterQualSet niter mean_ratio, PbSeq (i + 1)) := by
  rw [iterativeNmc,
    iterativeNmc_fold A s0 R Pb_ini niter mean_ratio randn sSeq PbSeq
      hs0 hP0 hs hP niter le_rfl]
  rfl

/-- A concrete zero reference trajectory for witnesses. -/
def refZero : Fin 1 → ℕ → ℚ := fun _ _ => 0

/-- A concrete mock assimilation collaborator for witnesses: state
`Unit`, a no-op cycle, an all-zero analysis of 10 time stamps, the
stationary model, `dt = 1`. -/
def unitAssim : Assim 1 Unit where
  setParams := fun _ _ => ()
  cycle := fun _ => ()
  analysis := fun _ => refZero
  analysisLen := fun _ => 10
  model := constModel
  dt := 1

/-- A concrete random source for the iterative witnesses. -/
def randnZ : ℕ → ℕ → Fin 1 → ℚ := fun _ _ _ => 0

/-- The inner `nmc` call made by `iterative_nmc` on the mock
collaborator returns the zero matrix (window `10*dt`, `num = 0`). -/
lemma unit_nmc (r : ℕ → Fin 1 → ℚ) :
    nmc constModel refZero 10 1 (10 * 1) 1 r = Except.ok 0 := by
  have h1 : nmcT1nstep 1 (10 * 1) = ((10 : ℕ) : ℤ) := by
    norm_num [nmcT1nstep, pyTrunc]
  have h2 : nmcNum 10 1 (10 * 1) = ((0 : ℕ) : ℤ) := by rw [nmcNum, h1]; decide
  rw [nmc_eq_ok constModel refZero 10 1 (10 * 1) 1 r 10 0 h1 (by norm_num) h2]
  simp [nmcSpecMatrix]

/-- C5: each loop iteration `i` of `iterative_nmc` configures the
assimilation object with the current `Pb`, runs one cycle, recomputes
`Pb` by calling `nmc(model, analysis, dt, 10*dt)` with the fixed window
`10*dt`, accumulates `Pb` and increments `count` exactly when
`i / n_iterations > mean_ratio`, and the final result is
`accumulator / count`.  `sSeq`/`PbSeq` are the successive assimilation
states and covariance estimates generated by exactly those steps. -/
theorem iterative_nmc_loop_characterization {ndim : ℕ} {σ : Type}
    (A : Assim ndim σ) (s0 : σ) (R : Matrix (Fin ndim) (Fin ndim) ℚ)
    (Pb_ini : Option (Matrix (Fin ndim) (Fin ndim) ℚ))
    (niter : ℕ) (mean_ratio : ℚ) (randn : ℕ → ℕ → Fin ndim → ℚ)
    (sSeq : ℕ → σ) (PbSeq : ℕ → Matrix (Fin ndim) (Fin ndim) ℚ)
    (hs0 : sSeq 0 = s0) (hP0 : PbSeq 0 = Pb_ini.getD R)
    (hs : ∀ i, sSeq (i + 1) = A.cycle (A.setParams (PbSeq i) (sSeq i)))
    (hP : ∀ i, i < niter →
      nmc A.model (A.analysis (sSeq (i + 1))) (A.analysisLen (sSeq (i + 1)))
        A.dt (10 * A.dt) 1 (randn i) = Except.ok (PbSeq (i + 1))) :
    iterativeNmc A s0 R Pb_ini niter mean_ratio randn =
      Except.ok (((iterCount niter mean_ratio : ℚ))⁻¹ •
        ∑ i ∈ iterQualSet niter mean_ratio, PbSeq (i + 1)) :=
  iterativeNmc_run A s0 R Pb_ini niter mean_ratio randn sSeq PbSeq
    hs0 hP0 hs hP

theorem iterative_nmc_loop_characterization_witness :
    (∀ i, i < 1 → nmc constModel refZero 10 1 (10 * 1) 1 (randnZ i) =
      Except.ok 0) ∧
    iterativeNmc unitAssim () 0 none 1 (1/2) randnZ =
      Except.ok (((iterCount 1 (1/2) : ℚ))⁻¹ •
        ∑ _i ∈ iterQualSet 1 (1/2), (0 : Matrix (Fin 1) (Fin 1) ℚ)) :=
  ⟨fun i _ => unit_nmc (randnZ i),
    iterative_nmc_loop_characterization unitAssim () 0 none 1 (1/2) randnZ
      (fun _ => ()) (fun _ => 0) rfl rfl (fun _ => rfl)
      (fun i _ => unit_nmc (randnZ i))⟩

/-- C6 counterexample: with `n_iterations = 1` and `mean_ratio = 1.0`
no iteration qualifies (`0/1 > 1` is false), `count` stays `0`, yet the
call does not fail with `InsufficientIterations`: the final division by
the zero `count` proceeds (a NaN matrix in numpy, the zero matrix in
the exact-arithmetic embedding) and a matrix is returned. -/
theorem iterative_nmc_zero_count_counterexample :
    iterativeNmc unitAssim () 0 none 1 1 randnZ = Except.ok 0 ∧
    iterativeNmc unitAssim () 0 none 1 1 randnZ ≠
      Except.error PyExc.insufficientIterations := by
  have h := iterativeNmc_run unitAssim () 0 none 1 1 randnZ
    (fun _ => ()) (fun _ => 0) rfl rfl (fun _ => rfl)
    (fun i _ => unit_nmc (randnZ i))
  rw [h]
  constructor
  · simp
  · simp

/-- C6 amended: when the averaging window selects zero iterations
(`count = 0` after the loop) and every inner `nmc` call returned, the
call still returns a matrix (the zero matrix in exact arithmetic, a NaN
matrix in numpy) instead of failing with `InsufficientIterations`. -/
theorem iterative_nmc_zero_count_returns {ndim : ℕ} {σ : Type}
    (A : Assim ndim σ) (s0 : σ) (R : Matrix (Fin ndim) (Fin ndim) ℚ)
    (Pb_ini : Option (Matrix (Fin ndim) (Fin ndim) ℚ))
    (niter : ℕ) (mean_ratio : ℚ) (randn : ℕ → ℕ → Fin ndim → ℚ)
    (sSeq : ℕ → σ) (PbSeq : ℕ → Matrix (Fin ndim) (Fin ndim) ℚ)
    (hs0 : sSeq 0 = s0) (hP0 : PbSeq 0 = Pb_ini.getD R)
    (hs : ∀ i, sSeq (i + 1) = A.cycle (A.setParams (PbSeq i) (sSeq i)))
    (hP : ∀ i, i < niter →
      nmc A.model (A.analysis (sSeq (i + 1))) (A.analysisLen (sSeq (i + 1)))
        A.dt (10 * A.dt) 1 (randn i) = Except.ok (PbSeq (i + 1)))
    (hcount : iterCount niter mean_ratio = 0) :
    iterativeNmc A s0 R Pb_ini niter mean_ratio randn = Except.ok 0 := by
  rw [iterativeNmc_run A s0 R Pb_ini niter mean_ratio randn sSeq PbSeq
    hs0 hP0 hs hP]
  have hempty : iterQualSet niter mean_ratio = ∅ :=
    Finset.card_eq_zero.mp hcount
  rw [hempty]
  simp

theorem iterative_nmc_zero_count_returns_witness :
    iterCount 1 1 = 0 ∧
    iterativeNmc unitAssim () 0 none 1 1 randnZ = Except.ok 0 := by
  have hc : iterCount 1 1 = 0 := by
    norm_num [iterCount, iterQualSet, iterQualSetUpTo, Finset.range_one,
      Finset.filter_singleton]
  exact ⟨hc, iterative_nmc_zero_count_returns unitAssim () 0 none 1 1 randnZ
    (fun _ => ()) (fun _ => 0) rfl rfl (fun _ => rfl)
    (fun i _ => unit_nmc (randnZ i)) hc⟩

/-- C7 counterexample: with `mean_ratio = 2`, outside the documented
domain `(0, 1]`, the call performs no validation: the loop runs, the
assimilation collaborator and the model are called, and a matrix is
returned — no `InvalidParameter` condition is raised, eagerly or at
all. -/
theorem iterative_nmc_invalid_ratio_counterexample :
    iterativeNmc unitAssim () 0 none 1 2 randnZ = Except.ok 0 ∧
    iterativeNmc unitAssim () 0 none 1 2 randnZ ≠
      Except.error PyExc.invalidParameter := by
  have h := iterativeNmc_run unitAssim () 0 none 1 2 randnZ
    (fun _ => ()) (fun _ => 0) rfl rfl (fun _ => rfl)
    (fun i _ => unit_nmc (randnZ i))
  rw [h]
  constructor
  · simp
  · simp

/-- C7 amended: `iterative_nmc` never validates `mean_ratio`: for every
value of `mean_ratio`, including values outside `(0, 1]`, provided each
inner `nmc` call returned, the whole loop runs and a matrix is
returned; no `InvalidParameter` condition exists in the code. -/
theorem iterative_nmc_no_ratio_validation {ndim : ℕ} {σ : Type}
    (A : Assim ndim σ) (s0 : σ) (R : Matrix (Fin ndim) (Fin ndim) ℚ)
    (Pb_ini : Option (Matrix (Fin ndim) (Fin ndim) ℚ))
    (niter : ℕ) (mean_ratio : ℚ) (randn : ℕ → ℕ → Fin ndim → ℚ)
    (sSeq : ℕ → σ) (PbSeq : ℕ → Matrix (Fin ndim) (Fin ndim) ℚ)
    (hs0 : sSeq 0 = s0) (hP0 : PbSeq 0 = Pb_ini.getD R)
    (hs : ∀ i, sSeq (i + 1) = A.cycle (A.setParams (PbSeq i) (sSeq i)))
    (hP : ∀ i, i < niter →
      nmc A.model (A.analysis (sSeq (i + 1))) (A.analysisLen (sSeq (i + 1)))
        A.dt (10 * A.dt) 1 (randn i) = Except.ok (PbSeq (i + 1))) :
    ∃ M, iterativeNmc A s0 R Pb_ini niter mean_ratio randn = Except.ok M :=
  ⟨_, iterativeNmc_run A s0 R Pb_ini niter mean_ratio randn sSeq PbSeq
    hs0 hP0 hs hP⟩

theorem iterative_nmc_no_ratio_validation_witness :
    ¬(0 < (-1 : ℚ) ∧ (-1 : ℚ) ≤ 1) ∧
    ∃ M, iterativeNmc unitAssim () 0 none 1 (-1) randnZ = Except.ok M :=
  ⟨by norm_num,
    iterative_nmc_no_ratio_validation unitAssim () 0 none 1 (-1) randnZ
      (fun _ => ()) (fun _ => 0) rfl rfl (fun _ => rfl)
      (fun i _ => unit_nmc (randnZ i))⟩

/-- C10: under the strict test `i / n_iterations > mean_ratio`, the
number of averaged iterations equals
`max(0, n_iterations - 1 - floor(mean_ratio * n_iterations))`; with
`n_iterations = 50` and `mean_ratio = 1/2`, exactly the 24 iterations
`26..49` qualify — strictly fewer than `(1 - mean_ratio) * 50 = 25`. -/
theorem iter_count_closed_form (niter : ℕ) (mean_ratio : ℚ)
    (hr : 0 ≤ mean_ratio) :
    ((iterCount niter mean_ratio : ℤ) =
      max 0 ((niter : ℤ) - 1 - ⌊mean_ratio * (niter : ℚ)⌋)) ∧
    iterQualSet 50 (1/2) = Finset.Icc 26 49 ∧
    iterCount 50 (1/2) = 24 ∧
    ((iterCount 50 (1/2) : ℚ) < (1 - 1/2) * 50) := by
  have hIcc : iterQualSet 50 (1/2 : ℚ) = Finset.Icc 26 49 := by
    ext i
    simp only [iterQualSet, iterQualSetUpTo, Finset.mem_filter,
      Finset.mem_range, Finset.mem_Icc]
    rw [lt_div_iff (by norm_num : (0:ℚ) < (50:ℕ))]
    have hcast : ((1:ℚ)/2 * ((50:ℕ):ℚ) < (i:ℚ)) ↔ 25 < i := by
      constructor
      · intro h
        have h25 : (25:ℚ) < (i:ℚ) := by push_cast at h ⊢; linarith
        exact_mod_cast h25
      · intro h
        have h25 : (25:ℚ) < (i:ℚ) := by exact_mod_cast h
        push_cast
        linarith
    rw [hcast]
    omega
  have hc24 : iterCount 50 (1/2 : ℚ) = 24 := by
    rw [iterCount, hIcc, Nat.card_Icc]
  refine ⟨?_, hIcc, hc24, by rw [hc24]; norm_num⟩
  rcases Nat.eq_zero_or_pos niter with h0 | hpos
  · subst h0
    simp [iterCount, iterQualSet, iterQualSetUpTo]
  · have hF0 : 0 ≤ ⌊mean_ratio * (niter : ℚ)⌋ :=
      Int.floor_nonneg.mpr (mul_nonneg hr (Nat.cast_nonneg _))
    have hmem : ∀ i : ℕ,
        (mean_ratio < (i : ℚ) / (niter : ℚ) ↔
          (⌊mean_ratio * (niter : ℚ)⌋).toNat < i) := by
      intro i
      rw [lt_div_iff (by exact_mod_cast hpos)]
      constructor
      · intro h
        have hfl : ⌊mean_ratio * (niter : ℚ)⌋ < (i : ℤ) :=
          Int.floor_lt.mpr (by push_cast; exact h)
        omega
      · intro h
        have hfl : ⌊mean_ratio * (niter : ℚ)⌋ < (i : ℤ) := by omega
        have := Int.floor_lt.mp hfl
        push_cast at this
        exact this
    have hfilter : iterQualSet niter mean_ratio =
        Finset.Ico ((⌊mean_ratio * (niter : ℚ)⌋).toNat + 1) niter := by
      ext i
      simp only [iterQualSet, iterQualSetUpTo, Finset.mem_filter,
        Finset.mem_range, Finset.mem_Ico, hmem i]
      omega
    rw [iterCount, hfilter, Nat.card_Ico]
    omega

theorem iter_count_closed_form_witness :
    (0 : ℚ) ≤ 1/2 ∧
    (((iterCount 50 (1/2) : ℤ) =
        max 0 (((50:ℕ) : ℤ) - 1 - ⌊(1/2 : ℚ) * ((50:ℕ) : ℚ)⌋)) ∧
      iterQualSet 50 (1/2) = Finset.Icc 26 49 ∧
      iterCount 50 (1/2) = 24 ∧
      ((iterCount 50 (1/2) : ℚ) < (1 - 1/2) * 50)) :=
  ⟨by norm_num, iter_count_closed_form 50 (1/2) (by norm_num)⟩
